import Mathlib

/-!
Verification of the tls-scrape scan engine against its specification.

The Go sources are shallowly embedded below:
* `ChunkSlice` from `pkg/scraper/utils.go`,
* `NextIP`, `CompareIPs`, `GetIPsInRange`, `parseSubnet` from `internal/helper/ip.go`,
* `isHostnameInCert` from the scraper's IP probe file,
* `MultiError.Error` from `pkg/scraper/errorHandler.go`,
* `ScrapeTLS` from the scraper's main file (parameterised by the per-target probe),
* the certificate-validation tail of `fetchFromDomainWithDialer` / `fetchFromIPWithDialer`,
* `GetOCSPResp` / `CheckOCSPStatus` from the OCSP package (parameterised by the
  network/parsing environment).

Machine bytes are `Nat` with explicit `% 256`; IP addresses are `List Nat`
(big-endian byte order), matching Go's `net.IP` byte slices.
-/

namespace TlsScrape

/-! ## Batch partitioner (`pkg/scraper/utils.go`, `ChunkSlice`) -/
/-- The chunking loop of `ChunkSlice`: `for i := 0; i < len(slice); i += chunkSize`
appending `slice[i:min(i+chunkSize, len(slice))]`, expressed as take/drop recursion
(valid for a positive chunk size, which is the only way the loop is reached). -/
def chunkLoop {α : Type} : List α → Nat → List (List α)
  | [], _ => []
  | _ :: _, 0 => []
  | a :: l, c + 1 => (a :: l).take (c + 1) :: chunkLoop ((a :: l).drop (c + 1)) (c + 1)
termination_by l _ => l.length
decreasing_by
  simp only [List.drop_succ_cons, List.length_drop, List.length_cons]
  omega

/-- `ChunkSlice` from `pkg/scraper/utils.go`: returns `[][]string{}` when
`chunkSize <= 0`, otherwise chunks of size `chunkSize` (Go `int` modelled as `Int`). -/
def ChunkSlice {α : Type} (slice : List α) (chunkSize : Int) : List (List α) :=
  if chunkSize ≤ 0 then []
  else chunkLoop slice chunkSize.toNat

/-! ## IP addresses (`internal/helper/ip.go`)

A `net.IP` is a byte slice; we model it as `List Nat` in big-endian byte order,
each byte `< 256` (`ValidIP`). Byte increment `next[i]++` wraps mod 256. -/
/-- A byte slice whose entries are genuine bytes. -/
def ValidIP (ip : List Nat) : Prop := ∀ b ∈ ip, b < 256

instance : DecidablePred ValidIP := fun ip =>
  List.decidableBAll (fun b => b < 256) ip

/-- `IPRange` from `internal/helper/ip.go`. -/
structure IPRange where
  Start : List Nat
  End : List Nat
deriving DecidableEq

/-- The loop of `NextIP` on the reversed (lowest-order byte first) list:
`next[i]++; if next[i] > 0 break` walking from the last byte towards the first. -/
def nextIPRev : List Nat → List Nat
  | [] => []
  | b :: rest =>
    if (b + 1) % 256 > 0 then (b + 1) % 256 :: rest
    else (b + 1) % 256 :: nextIPRev rest

/-- `NextIP` from `internal/helper/ip.go`: copy the address and increment it as a
big-endian byte counter, carrying into higher-order bytes, discarding the final
carry. -/
def NextIP (ip : List Nat) : List Nat := (nextIPRev ip.reverse).reverse

/-- The byte-comparison loop of `CompareIPs` (runs over equal-length slices). -/
def compareBytes : List Nat → List Nat → Int
  | a :: as, b :: bs =>
    if a < b then -1
    else if a > b then 1
    else compareBytes as bs
  | _, _ => 0

/-- The 12-byte marker with which a 16-byte slice encodes an IPv4 address
(`net.IP.To4`'s test). -/
def v4InV6Header : List Nat := [0, 0, 0, 0, 0, 0, 0, 0, 0, 0, 255, 255]

/-- `net.IP.To4`: the 4-byte form of an address, when it has one. -/
def to4 (ip : List Nat) : Option (List Nat) :=
  if ip.length = 4 then some ip
  else if ip.length = 16 ∧ ip.take 12 = v4InV6Header then some (ip.drop 12)
  else none

/-- `CompareIPs` from `internal/helper/ip.go`: normalize differing lengths via
`To4` when possible (returning 0 when impossible), then compare byte-wise. -/
def CompareIPs (ip1 ip2 : List Nat) : Int :=
  if ip1.length ≠ ip2.length then
    match to4 ip1, to4 ip2 with
    | some a, some b => compareBytes a b
    | _, _ => 0
  else compareBytes ip1 ip2

/-- The value of a big-endian byte string as a natural number. -/
def bigVal : List Nat → Nat
  | [] => 0
  | b :: rest => b * 256 ^ rest.length + bigVal rest

/-- The value of a little-endian (reversed) byte string. -/
def littleVal : List Nat → Nat
  | [] => 0
  | b :: rest => b + 256 * littleVal rest

/-- The length-`n` big-endian byte string of a natural number (mod `256^n`). -/
def natToIp : Nat → Nat → List Nat
  | 0, _ => []
  | n + 1, k => natToIp n (k / 256) ++ [k % 256]

/-- The loop of `GetIPsInRange`
(`for ip := r.Start; CompareIPs(ip, r.End) <= 0; ip = NextIP(ip)`), with explicit
fuel: `none` means the loop has not terminated within `fuel` iterations. -/
def getIPsLoop (e : List Nat) : Nat → List Nat → Option (List (List Nat))
  | 0, _ => none
  | fuel + 1, ip =>
    if CompareIPs ip e ≤ 0 then
      (getIPsLoop e fuel (NextIP ip)).map (ip :: ·)
    else some []

/-- `GetIPsInRange` from `internal/helper/ip.go`, with explicit fuel. -/
def GetIPsInRangeFuel (r : IPRange) (fuel : Nat) : Option (List (List Nat)) :=
  getIPsLoop r.End fuel r.Start

/-- The first length adjustment of `net.IP.Mask`: a 16-byte mask whose first 12
bytes are all ones is shortened to its last 4 bytes when the address is
4-byte. -/
def maskAdjusted (ip mask : List Nat) : List Nat :=
  if mask.length = 16 ∧ ip.length = 4 ∧ mask.take 12 = List.replicate 12 255
  then mask.drop 12 else mask

/-- The second length adjustment of `net.IP.Mask`: a 16-byte IPv4-mapped
address is shortened to its last 4 bytes when the (already adjusted) mask is
4-byte. -/
def ipAdjusted (ip mask : List Nat) : List Nat :=
  if (maskAdjusted ip mask).length = 4 ∧ ip.length = 16 ∧ ip.take 12 = v4InV6Header
  then ip.drop 12 else ip

/-- `net.IP.Mask`: after the two length adjustments, byte-wise AND when the
lengths agree, and the nil slice (modelled as `[]`, which has length 0 exactly
like Go's nil `net.IP`) otherwise. -/
def maskIP (ip mask : List Nat) : List Nat :=
  if (ipAdjusted ip mask).length = (maskAdjusted ip mask).length
  then List.zipWith Nat.land (ipAdjusted ip mask) (maskAdjusted ip mask)
  else []

/-- The range computation of `parseSubnet` from `internal/helper/ip.go`, given
the address and mask bytes produced by `net.ParseCIDR`: normalize the address
via `To4`, AND it with the *original* mask for the start (`ip.Mask(ipNet.Mask)`),
copy the start into `end`, then run
`for i := 0; i < len(ipNet.Mask); i++ { end[i] |= ^ipNet.Mask[i] }`.
The loop indexes `end` (whose length is the start's) at every position below
`len(ipNet.Mask)`; when the mask is longer than the start this is an
index-out-of-range panic, modelled as `none`. -/
def parseSubnet (ip mask : List Nat) : Option IPRange :=
  if mask.length ≤ (maskIP ((to4 ip).getD ip) mask).length then
    some ⟨maskIP ((to4 ip).getD ip) mask,
      List.zipWith (fun s m => Nat.lor s (Nat.xor 255 m))
        (maskIP ((to4 ip).getD ip) mask) mask
      ++ (maskIP ((to4 ip).getD ip) mask).drop mask.length⟩
  else none

/-- Modelled from the spec's words, for comparison with `parseSubnet`: the range
start is the address bitwise-ANDed with the mask, and the range end is that
start with every bit outside the mask set to 1 (for a byte `m`, the bits outside
the mask are `255 - m`). -/
def specSubnetRange (addr mask : List Nat) : IPRange :=
  ⟨List.zipWith Nat.land addr mask,
   List.zipWith (fun s m => Nat.lor s (255 - m))
     (List.zipWith Nat.land addr mask) mask⟩

/-! ## Certificates and the hostname check (scraper IP probe file) -/
/-- The fields of an `x509.Certificate` the engine reads. -/
structure Certificate where
  SubjectCommonName : String
  DNSNames : List String
  SerialNumber : Nat
  NotBefore : Int
  NotAfter : Int
  IssuerName : String
  CRLDistributionPoints : List String
  OCSPServer : List String
deriving DecidableEq

/-- `isHostnameInCert`: return true when the hostname equals the subject common
name, otherwise scan the DNS-type subject-alternative names for an equal entry,
otherwise return false. -/
def isHostnameInCert (cert : Certificate) (hostname : String) : Bool :=
  if cert.SubjectCommonName == hostname then true
  else cert.DNSNames.any (fun san => san == hostname)

/-! ## Error aggregation (`pkg/scraper/errorHandler.go`) -/
/-- `MultiError` from `pkg/scraper/errorHandler.go`: the Go
`map[string]error` is modelled as an association list of
(target identifier, failure message) pairs in iteration order. -/
structure MultiError where
  Errors : List (String × String)
deriving DecidableEq

/-- One rendered entry: `fmt.Sprintf("Domain: %s, Error: %s\n", domain, err)`. -/
def errLine (domain msg : String) : String :=
  "Domain: " ++ domain ++ ", Error: " ++ msg ++ "\n"

/-- `MultiError.Error`: start from the header and append one formatted entry
per mapping element, in mapping order. -/
def MultiErrorString (me : MultiError) : String :=
  me.Errors.foldl (fun acc p => acc ++ errLine p.1 p.2) "Multiple errors occurred:\n"

/-- Concatenation of a list of strings (used only to state what the rendering
loop produces). -/
def concatStrings : List String → String
  | [] => ""
  | s :: rest => s ++ concatStrings rest

/-! ## Concurrent scan orchestrator (`ScrapeTLS`, scraper main file)

Each goroutine either deposits a successful `CertDetails` on the results
channel or a `(site, error)` pair on the error channel; the orchestrator waits
for all of them, drains the successes into a list and the failures into the
`MultiError` map, and returns the error only when the map is non-empty. The
per-target probe (`fetchFromDomain`) is a parameter; goroutine completion
order is abstracted to input order (the claims are order-insensitive). -/
/-- `CertDetails` from the scraper's main file. -/
structure CertDetails where
  Domain : String
  Serial : String
  NotBefore : String
  NotAfter : String
  Issuer : String
  CRL : List String
  OCSPServer : List String
  CertChain : List Certificate
  Valid : Bool
  ValidationErrs : List String
deriving DecidableEq

/-- Go `map` insertion (`multiError.Errors[domain] = e`): overwrite the existing
entry for the key or add a fresh one. -/
def mapInsert (m : List (String × String)) (k v : String) : List (String × String) :=
  if m.any (fun p => p.1 == k) then
    m.map (fun p => if p.1 == k then (k, v) else p)
  else m ++ [(k, v)]

/-- The body of one scraping goroutine, restricted to its effect on the error
map: a failed probe deposits `(site, error)` (collected into the map), a
successful one does not touch it. -/
def scrapeStep (probe : String → Except String CertDetails)
    (m : List (String × String)) (site : String) : List (String × String) :=
  match probe site with
  | .error e => mapInsert m site e
  | .ok _ => m

/-- The `MultiError` map accumulated from all goroutines' failure deposits. -/
def scrapeErrs (probe : String → Except String CertDetails)
    (websites : List String) : List (String × String) :=
  websites.foldl (scrapeStep probe) []

/-- `ScrapeTLS`: run the probe for every website; successes are collected into
the result list, failures into the `MultiError` map; the error value is
returned exactly when the map is non-empty. -/
def ScrapeTLS (probe : String → Except String CertDetails)
    (websites : List String) : List CertDetails × Option MultiError :=
  (websites.filterMap (fun site => (probe site).toOption),
   if (scrapeErrs probe websites).length > 0 then some ⟨scrapeErrs probe websites⟩
   else none)

/-- Key membership in the modelled Go map. -/
def HasKey (m : List (String × String)) (s : String) : Prop := ∃ v, (s, v) ∈ m

/-- A concrete probe for exercising the orchestrator: succeeds on `"a"`, fails
with a connection error on every other target. -/
def demoProbe : String → Except String CertDetails := fun s =>
  if s = "a" then .ok ⟨"a", "1", "nb", "na", "iss", [], [], [], true, []⟩
  else .error "dial tcp: connection refused"

/-! ## Certificate validation (tails of `fetchFromDomainWithDialer` and
`fetchFromIPWithDialer`)

The network fetch populates the record, then computes `Valid` /
`ValidationErrs` from the outcome of `x509.Certificate.Verify` (modelled as an
`Option VerifyError` parameter) and finally — independently of that outcome —
re-checks the leaf's validity window against the current time. -/
/-- The `Reason` of an `x509.CertificateInvalidError` as the switch reads it. -/
inductive InvalidReason
  | Expired
  | NotAuthorizedToSign
  | IncompatibleUsage
  | CANotAuthorizedForThisName
  | TooManyIntermediates
  | OtherReason (code : Int)
deriving DecidableEq

/-- The classes of `cert.Verify` failure the switch distinguishes. -/
inductive VerifyError
  | CertificateInvalid (reason : InvalidReason)
  | HostnameMismatch
  | UnknownAuthority
  | Generic (msg : String)
deriving DecidableEq

/-- The reason string for an `x509.CertificateInvalidError`, per the inner
switch of both fetchers. -/
def certInvalidReason (r : InvalidReason) : String :=
  match r with
  | .Expired => "Certificate has expired or is not yet valid"
  | .NotAuthorizedToSign => "Certificate is not authorized to sign other certificates"
  | .IncompatibleUsage => "Certificate usage is incompatible with the intended usage"
  | .CANotAuthorizedForThisName => "CA is not authorized for this name"
  | .TooManyIntermediates => "Too many intermediate certificates"
  | .OtherReason code => "Certificate is invalid (reason code: " ++ toString code ++ ")"

/-- A stand-in for `err.Error()` on a verification error (only its presence in
a generic message matters to the claims). -/
def verifyErrText : VerifyError → String
  | .CertificateInvalid _ => "x509: certificate is not authorized"
  | .HostnameMismatch => "x509: certificate is valid for other names"
  | .UnknownAuthority => "x509: certificate signed by unknown authority"
  | .Generic msg => msg

/-- The switch in `fetchFromDomainWithDialer` applied to the verification
outcome: a failure forces `Valid` to false and appends one classified reason. -/
def applyDomainVerify (domain : String) (res : Option VerifyError)
    (v : Bool × List String) : Bool × List String :=
  match res with
  | none => v
  | some e =>
    (false, v.2 ++ [match e with
      | .CertificateInvalid r => certInvalidReason r
      | .HostnameMismatch => "Certificate is not valid for domain: " ++ domain
      | .UnknownAuthority =>
          "Certificate signed by unknown authority (possibly self-signed)"
      | .Generic msg => "Certificate validation error: " ++ msg])

/-- The two verification switches in `fetchFromIPWithDialer`: with a resolved
hostname the hostname-mismatch case names the hostname; without one the switch
has no hostname case (such an error falls to the generic branch). -/
def applyIPVerify (hostname : Option String) (res : Option VerifyError)
    (v : Bool × List String) : Bool × List String :=
  match res with
  | none => v
  | some e =>
    (false, v.2 ++ [match hostname, e with
      | _, .CertificateInvalid r => certInvalidReason r
      | some h, .HostnameMismatch => "Certificate is not valid for hostname: " ++ h
      | _, .UnknownAuthority =>
          "Certificate signed by unknown authority (possibly self-signed)"
      | _, .Generic msg => "Certificate validation error: " ++ msg
      | none, e => "Certificate validation error: " ++ verifyErrText e])

/-- The validity-window recheck shared verbatim by both fetchers:
`if now.Before(NotBefore)` append "not yet valid" and clear `Valid`;
`if now.After(NotAfter)` append "expired" and clear `Valid`. -/
def checkValidityWindow (notBefore notAfter now : Int)
    (v : Bool × List String) : Bool × List String :=
  let v1 := if now < notBefore then (false, v.2 ++ ["Certificate is not yet valid"])
    else v
  if now > notAfter then (false, v1.2 ++ ["Certificate has expired"]) else v1

/-- `Valid`/`ValidationErrs` as computed by `fetchFromDomainWithDialer` after a
successful fetch: start from `(true, [])`, apply the verification switch, then
re-check the validity window. -/
def domainValidation (domain : String) (res : Option VerifyError)
    (notBefore notAfter now : Int) : Bool × List String :=
  checkValidityWindow notBefore notAfter now (applyDomainVerify domain res (true, []))

/-- `Valid`/`ValidationErrs` as computed by `fetchFromIPWithDialer` after a
successful fetch. -/
def ipValidation (hostname : Option String) (res : Option VerifyError)
    (notBefore notAfter now : Int) : Bool × List String :=
  checkValidityWindow notBefore notAfter now (applyIPVerify hostname res (true, []))

/-! ## OCSP status checker (`pkg/ocsp`)

`GetOCSPResp` builds an OCSP request, POSTs it to the first advertised
responder URL, parses the response against the issuer, and re-parses against a
delegated responder certificate when the response embeds one.
`CheckOCSPStatus` then accepts exactly the "good" status. The network and the
OCSP wire format are external collaborators, modelled as an explicit
environment of fallible functions. -/
/-- `ocsp.ResponseStatus` values the checker distinguishes. -/
inductive OCSPStatus
  | Good
  | Revoked
  | Unknown
deriving DecidableEq

/-- The fields of an `ocsp.Response` the checker reads. -/
structure OCSPResponse where
  Status : OCSPStatus
  Certificate : Option Certificate
deriving DecidableEq

/-- The external collaborators of the OCSP checker: request construction,
HTTP POST (URL and body to response body), and response parsing against a
verifying certificate. -/
structure OCSPEnv where
  createRequest : Certificate → Certificate → Except String (List Nat)
  httpPost : String → List Nat → Except String (List Nat)
  parseResponse : List Nat → Certificate → Except String OCSPResponse

/-- `OCSPChecker.GetOCSPResp`: fail when no OCSP server is advertised;
otherwise create the request, POST it to `OCSPServer[0]`, parse against the
issuer, and re-parse against the delegated responder certificate when one is
embedded. -/
def GetOCSPResp (env : OCSPEnv) (cert issuer : Certificate) :
    Except String OCSPResponse :=
  if cert.OCSPServer.length = 0 then .error "no OCSP server specified in cert"
  else
    match env.createRequest cert issuer with
    | .error e => .error e
    | .ok req =>
      match env.httpPost (cert.OCSPServer.headD "") req with
      | .error e => .error e
      | .ok body =>
        match env.parseResponse body issuer with
        | .error e => .error e
        | .ok resp =>
          match resp.Certificate with
          | some c =>
            match env.parseResponse body c with
            | .error e => .error e
            | .ok resp2 => .ok resp2
          | none => .ok resp

/-- `OCSPChecker.CheckOCSPStatus`: propagate `GetOCSPResp` failures; otherwise
fail with "invalid OCSP status" exactly when the parsed status is not good. -/
def CheckOCSPStatus (env : OCSPEnv) (cert issuer : Certificate) :
    Except String Unit :=
  match GetOCSPResp env cert issuer with
  | .error e => .error e
  | .ok resp =>
    if resp.Status ≠ OCSPStatus.Good then .error "invalid OCSP status"
    else .ok ()

lemma chunkLoop_flatten {α : Type} (l : List α) (c : Nat) (hc : 0 < c) :
    (chunkLoop l c).flatten = l := by
  induction l, c using chunkLoop.induct with
  | case1 c => simp [chunkLoop]
  | case2 a l => omega
  | case3 a l c ih =>
    simp only [chunkLoop, List.flatten_cons]
    rw [ih (Nat.succ_pos c)]
    exact List.take_append_drop _ _

lemma chunkLoop_ne_nil {α : Type} (a : α) (l : List α) (c : Nat) :
    chunkLoop (a :: l) (c + 1) ≠ [] := by
  simp [chunkLoop]

lemma chunkLoop_dropLast_length {α : Type} (l : List α) (c : Nat) (hc : 0 < c) :
    ∀ b ∈ (chunkLoop l c).dropLast, b.length = c := by
  induction l, c using chunkLoop.induct with
  | case1 c => simp [chunkLoop]
  | case2 a l => omega
  | case3 a l c ih =>
    intro b hb
    simp only [chunkLoop] at hb
    rcases hd : (a :: l).drop (c + 1) with _ | ⟨x, xs⟩
    · rw [hd] at hb
      simp [chunkLoop] at hb
    · rw [hd] at hb
      rw [List.dropLast_cons_of_ne_nil (hd ▸ chunkLoop_ne_nil x xs c)] at hb
      rcases List.mem_cons.mp hb with rfl | hb'
      · have hlen : c + 1 ≤ (a :: l).length := by
          by_contra hlt
          have h0 : (a :: l).length ≤ c + 1 := by omega
          rw [List.drop_eq_nil_of_le h0] at hd
          exact List.noConfusion hd
        rw [List.length_take]
        exact Nat.min_eq_left hlen
      · exact ih (Nat.succ_pos c) b (hd ▸ hb')

lemma getLast?_cons_of_ne {α : Type} (a : α) {l : List α} (h : l ≠ []) :
    (a :: l).getLast? = l.getLast? := by
  cases l with
  | nil => exact absurd rfl h
  | cons x xs => exact List.getLast?_cons_cons

lemma chunkLoop_getLast_length {α : Type} (l : List α) (c : Nat) (hc : 0 < c) :
    ∀ b, (chunkLoop l c).getLast? = some b → 1 ≤ b.length ∧ b.length ≤ c := by
  induction l, c using chunkLoop.induct with
  | case1 c => simp [chunkLoop]
  | case2 a l => omega
  | case3 a l c ih =>
    intro b hb
    simp only [chunkLoop] at hb
    rcases hd : (a :: l).drop (c + 1) with _ | ⟨x, xs⟩
    · rw [hd] at hb
      simp only [chunkLoop, List.getLast?_singleton, Option.some.injEq] at hb
      subst hb
      constructor
      · simp
      · rw [List.length_take]
        exact Nat.min_le_left _ _
    · rw [hd] at hb
      rw [getLast?_cons_of_ne _ (hd ▸ chunkLoop_ne_nil x xs c)] at hb
      exact ih (Nat.succ_pos c) b (hd ▸ hb)

lemma chunkLoop_mem_length {α : Type} (l : List α) (c : Nat) (hc : 0 < c) :
    ∀ b ∈ chunkLoop l c, 1 ≤ b.length ∧ b.length ≤ c := by
  induction l, c using chunkLoop.induct with
  | case1 c => simp [chunkLoop]
  | case2 a l => omega
  | case3 a l c ih =>
    intro b hb
    simp only [chunkLoop] at hb
    rcases List.mem_cons.mp hb with rfl | hb'
    · constructor
      · simp
      · rw [List.length_take]
        exact Nat.min_le_left _ _
    · exact ih (Nat.succ_pos c) b hb'

/-- **C2.** `ChunkSlice` partitions correctly: for a positive chunk size the
batches concatenate back to the input in order (no duplication or loss), every
batch except possibly the last has length exactly `chunkSize`, the last batch
has length between 1 and `chunkSize`, and for a chunk size `≤ 0` the function
returns zero batches rather than an error. -/
theorem ChunkSlice_partitions {α : Type} (L : List α) (C : Int) :
    (C ≤ 0 → ChunkSlice L C = []) ∧
    (0 < C →
      (ChunkSlice L C).flatten = L ∧
      (∀ b ∈ ChunkSlice L C, 1 ≤ b.length ∧ b.length ≤ C.toNat) ∧
      (∀ b ∈ (ChunkSlice L C).dropLast, b.length = C.toNat) ∧
      (∀ b, (ChunkSlice L C).getLast? = some b →
        1 ≤ b.length ∧ b.length ≤ C.toNat)) := by
  constructor
  · intro hC
    simp [ChunkSlice, hC]
  · intro hC
    have hCn : ¬ C ≤ 0 := not_le.mpr hC
    have hpos : 0 < C.toNat := by omega
    simp only [ChunkSlice, if_neg hCn]
    exact ⟨chunkLoop_flatten L C.toNat hpos,
      chunkLoop_mem_length L C.toNat hpos,
      chunkLoop_dropLast_length L C.toNat hpos,
      chunkLoop_getLast_length L C.toNat hpos⟩

/-- **C2 witness.** The partitioning theorem instantiated on the concrete list
`["a", "b", "c", "d", "e"]` with chunk size 2 (and chunk size `-1` for the
non-positive branch). -/
theorem ChunkSlice_partitions_witness :
    ((-1 : Int) ≤ 0 → ChunkSlice ["a", "b", "c", "d", "e"] (-1) = []) ∧
    ((0 : Int) < 2 →
      (ChunkSlice ["a", "b", "c", "d", "e"] 2).flatten = ["a", "b", "c", "d", "e"] ∧
      (∀ b ∈ ChunkSlice ["a", "b", "c", "d", "e"] 2,
        1 ≤ b.length ∧ b.length ≤ (2 : Int).toNat) ∧
      (∀ b ∈ (ChunkSlice ["a", "b", "c", "d", "e"] 2).dropLast,
        b.length = (2 : Int).toNat) ∧
      (∀ b, (ChunkSlice ["a", "b", "c", "d", "e"] 2).getLast? = some b →
        1 ≤ b.length ∧ b.length ≤ (2 : Int).toNat)) :=
  ⟨(ChunkSlice_partitions ["a", "b", "c", "d", "e"] (-1)).1,
   fun _ => (ChunkSlice_partitions ["a", "b", "c", "d", "e"] 2).2 (by decide)⟩

lemma littleVal_lt (l : List Nat) (h : ValidIP l) : littleVal l < 256 ^ l.length := by
  induction l with
  | nil => simp [littleVal]
  | cons b rest ih =>
    have hb : b < 256 := h b (List.mem_cons_self b rest)
    have hr : littleVal rest < 256 ^ rest.length :=
      ih (fun x hx => h x (List.mem_cons_of_mem b hx))
    simp only [littleVal, List.length_cons, pow_succ]
    calc b + 256 * littleVal rest
        ≤ 255 + 256 * littleVal rest := by omega
      _ < 256 * (littleVal rest + 1) := by omega
      _ ≤ 256 * 256 ^ rest.length := by
          exact Nat.mul_le_mul_left 256 hr
      _ = 256 ^ rest.length * 256 := by ring

lemma bigVal_lt (l : List Nat) (h : ValidIP l) : bigVal l < 256 ^ l.length := by
  induction l with
  | nil => simp [bigVal]
  | cons b rest ih =>
    have hb : b < 256 := h b (List.mem_cons_self b rest)
    have hr : bigVal rest < 256 ^ rest.length :=
      ih (fun x hx => h x (List.mem_cons_of_mem b hx))
    simp only [bigVal, List.length_cons, pow_succ]
    calc b * 256 ^ rest.length + bigVal rest
        < b * 256 ^ rest.length + 256 ^ rest.length := by omega
      _ = (b + 1) * 256 ^ rest.length := by ring
      _ ≤ 256 * 256 ^ rest.length := by
          exact Nat.mul_le_mul_right _ (by omega)
      _ = 256 ^ rest.length * 256 := by ring

lemma bigVal_append_singleton (l : List Nat) (b : Nat) :
    bigVal (l ++ [b]) = 256 * bigVal l + b := by
  induction l with
  | nil => simp [bigVal]
  | cons a l ih =>
    have h1 : bigVal ((a :: l) ++ [b]) = a * 256 ^ (l ++ [b]).length + bigVal (l ++ [b]) :=
      rfl
    have h2 : (l ++ [b]).length = l.length + 1 := by simp
    rw [h1, h2, ih, bigVal, pow_succ]
    ring

lemma bigVal_reverse (l : List Nat) : bigVal l.reverse = littleVal l := by
  induction l with
  | nil => rfl
  | cons b rest ih =>
    simp only [List.reverse_cons, bigVal_append_singleton, ih, littleVal]
    ring

lemma littleVal_reverse (l : List Nat) : littleVal l.reverse = bigVal l := by
  have h := bigVal_reverse l.reverse
  rw [List.reverse_reverse] at h
  exact h.symm

lemma nextIPRev_length (l : List Nat) : (nextIPRev l).length = l.length := by
  induction l with
  | nil => rfl
  | cons b rest ih =>
    simp only [nextIPRev]
    split
    · simp
    · simp [ih]

lemma nextIPRev_valid (l : List Nat) (h : ValidIP l) : ValidIP (nextIPRev l) := by
  induction l with
  | nil => exact h
  | cons b rest ih =>
    have hrest : ValidIP rest := fun x hx => h x (List.mem_cons_of_mem b hx)
    simp only [nextIPRev]
    split
    · intro x hx
      rcases List.mem_cons.mp hx with rfl | hx'
      · exact Nat.mod_lt _ (by omega)
      · exact hrest x hx'
    · intro x hx
      rcases List.mem_cons.mp hx with rfl | hx'
      · exact Nat.mod_lt _ (by omega)
      · exact ih hrest x hx'

lemma nextIPRev_littleVal (l : List Nat) (h : ValidIP l) :
    littleVal (nextIPRev l) = (littleVal l + 1) % 256 ^ l.length := by
  induction l with
  | nil => rfl
  | cons b rest ih =>
    have hb : b < 256 := h b (List.mem_cons_self b rest)
    have hrest : ValidIP rest := fun x hx => h x (List.mem_cons_of_mem b hx)
    have hr : littleVal rest < 256 ^ rest.length := littleVal_lt rest hrest
    simp only [nextIPRev, littleVal, List.length_cons, pow_succ]
    rcases Nat.lt_or_ge b 255 with hlt | hge
    · have hmod : (b + 1) % 256 = b + 1 := Nat.mod_eq_of_lt (by omega)
      rw [if_pos (by omega)]
      simp only [littleVal, hmod]
      have hlt : b + 256 * littleVal rest + 1 < 256 ^ rest.length * 256 := by
        calc b + 256 * littleVal rest + 1
            ≤ 255 + 256 * littleVal rest := by omega
          _ < 256 * (littleVal rest + 1) := by omega
          _ ≤ 256 * 256 ^ rest.length := Nat.mul_le_mul_left 256 hr
          _ = 256 ^ rest.length * 256 := by ring
      rw [Nat.mod_eq_of_lt hlt]
      omega
    · have hb255 : b = 255 := by omega
      subst hb255
      rw [if_neg (by norm_num)]
      simp only [littleVal, ih hrest]
      have : (255 : Nat) + 256 * littleVal rest + 1 = 256 * (littleVal rest + 1) := by
        ring
      rw [this, Nat.mul_comm (256 ^ rest.length) 256, Nat.mul_mod_mul_left]
      norm_num

lemma NextIP_length (ip : List Nat) : (NextIP ip).length = ip.length := by
  simp [NextIP, nextIPRev_length]

lemma NextIP_valid (ip : List Nat) (h : ValidIP ip) : ValidIP (NextIP ip) := by
  intro x hx
  simp only [NextIP, List.mem_reverse] at hx
  exact nextIPRev_valid ip.reverse (fun y hy => h y (List.mem_reverse.mp hy)) x hx

lemma NextIP_bigVal (ip : List Nat) (h : ValidIP ip) :
    bigVal (NextIP ip) = (bigVal ip + 1) % 256 ^ ip.length := by
  have hrev : ValidIP ip.reverse := fun y hy => h y (List.mem_reverse.mp hy)
  simp only [NextIP, bigVal_reverse]
  rw [nextIPRev_littleVal ip.reverse hrev, littleVal_reverse, List.length_reverse]

lemma compareBytes_spec (a : List Nat) : ∀ (b : List Nat), ValidIP a → ValidIP b →
    a.length = b.length →
    compareBytes a b =
      if bigVal a < bigVal b then -1 else if bigVal b < bigVal a then 1 else 0 := by
  induction a with
  | nil =>
    intro b _ _ hlen
    cases b with
    | nil => rfl
    | cons y ys => simp at hlen
  | cons x xs ih =>
    intro b ha hb hlen
    cases b with
    | nil => simp at hlen
    | cons y ys =>
      have hx : x < 256 := ha x (List.mem_cons_self x xs)
      have hy : y < 256 := hb y (List.mem_cons_self y ys)
      have hxs : ValidIP xs := fun z hz => ha z (List.mem_cons_of_mem x hz)
      have hys : ValidIP ys := fun z hz => hb z (List.mem_cons_of_mem y hz)
      have hlen' : xs.length = ys.length := by simpa using hlen
      have hxv : bigVal xs < 256 ^ ys.length := by
        rw [← hlen']
        exact bigVal_lt xs hxs
      have hyv : bigVal ys < 256 ^ ys.length := bigVal_lt ys hys
      have hbx : bigVal (x :: xs) = x * 256 ^ ys.length + bigVal xs := by
        simp only [bigVal, hlen']
      have hby : bigVal (y :: ys) = y * 256 ^ ys.length + bigVal ys := rfl
      have hcb : compareBytes (x :: xs) (y :: ys) =
          if x < y then -1 else if x > y then 1 else compareBytes xs ys := rfl
      rw [hcb, hbx, hby]
      rcases Nat.lt_trichotomy x y with hxy | hxy | hxy
      · have hlt : x * 256 ^ ys.length + bigVal xs
            < y * 256 ^ ys.length + bigVal ys := by
          calc x * 256 ^ ys.length + bigVal xs
              < x * 256 ^ ys.length + 256 ^ ys.length := by omega
            _ = (x + 1) * 256 ^ ys.length := by ring
            _ ≤ y * 256 ^ ys.length := Nat.mul_le_mul_right _ (by omega)
            _ ≤ y * 256 ^ ys.length + bigVal ys := Nat.le_add_right _ _
        rw [if_pos hxy, if_pos hlt]
      · subst hxy
        rw [if_neg (lt_irrefl x), if_neg (lt_irrefl x), ih ys hxs hys hlen']
        simp only [add_lt_add_iff_left]
      · have hgt : y * 256 ^ ys.length + bigVal ys
            < x * 256 ^ ys.length + bigVal xs := by
          calc y * 256 ^ ys.length + bigVal ys
              < y * 256 ^ ys.length + 256 ^ ys.length := by omega
            _ = (y + 1) * 256 ^ ys.length := by ring
            _ ≤ x * 256 ^ ys.length := Nat.mul_le_mul_right _ (by omega)
            _ ≤ x * 256 ^ ys.length + bigVal xs := Nat.le_add_right _ _
        rw [if_neg (by omega : ¬ x < y), if_pos hxy, if_neg (Nat.lt_asymm hgt),
          if_pos hgt]

lemma natToIp_bigVal (ip : List Nat) (h : ValidIP ip) :
    natToIp ip.length (bigVal ip) = ip := by
  induction ip using List.reverseRecOn with
  | nil => rfl
  | append_singleton l b ih =>
    have hb : b < 256 := h b (by simp)
    have hl : ValidIP l := fun x hx => h x (by simp [hx])
    have hlen : (l ++ [b]).length = l.length + 1 := by simp
    rw [hlen, bigVal_append_singleton]
    show natToIp l.length ((256 * bigVal l + b) / 256) ++ [(256 * bigVal l + b) % 256]
      = l ++ [b]
    have hdiv : (256 * bigVal l + b) / 256 = bigVal l := by
      rw [Nat.mul_add_div (by norm_num), Nat.div_eq_of_lt hb, Nat.add_zero]
    have hmod : (256 * bigVal l + b) % 256 = b := by
      rw [Nat.mul_add_mod, Nat.mod_eq_of_lt hb]
    rw [hdiv, hmod, ih hl]

lemma bigVal_inj {a b : List Nat} (ha : ValidIP a) (hb : ValidIP b)
    (hlen : a.length = b.length) (hv : bigVal a = bigVal b) : a = b := by
  have h1 := natToIp_bigVal a ha
  have h2 := natToIp_bigVal b hb
  rw [hv, hlen] at h1
  rw [h1] at h2
  exact h2

lemma CompareIPs_same_length (a b : List Nat) (hlen : a.length = b.length) :
    CompareIPs a b = compareBytes a b := by
  simp [CompareIPs, hlen]

lemma getIPsLoop_spec (n : Nat) (e : List Nat) (he : ValidIP e) (hel : e.length = n)
    (hend : bigVal e + 1 < 256 ^ n) :
    ∀ (k fuel : Nat) (s : List Nat), ValidIP s → s.length = n →
      bigVal s ≤ bigVal e → bigVal e - bigVal s = k → k + 2 ≤ fuel →
      getIPsLoop e fuel s =
        some ((List.range' (bigVal s) (bigVal e - bigVal s + 1)).map (natToIp n)) := by
  intro k
  induction k using Nat.strong_induction_on with
  | _ k ih =>
    intro fuel s hs hsl hle hk hfuel
    obtain ⟨f, rfl⟩ : ∃ f, fuel = f + 1 := ⟨fuel - 1, by omega⟩
    have hse : s.length = e.length := hsl.trans hel.symm
    have hcmp : CompareIPs s e ≤ 0 := by
      rw [CompareIPs_same_length s e hse, compareBytes_spec s e hs he hse]
      split_ifs <;> omega
    have hnext_len : (NextIP s).length = n := by rw [NextIP_length, hsl]
    have hnext_valid : ValidIP (NextIP s) := NextIP_valid s hs
    have hnext_val : bigVal (NextIP s) = bigVal s + 1 := by
      rw [NextIP_bigVal s hs, hsl, Nat.mod_eq_of_lt (by omega)]
    have hunfold : getIPsLoop e (f + 1) s =
        if CompareIPs s e ≤ 0 then
          (getIPsLoop e f (NextIP s)).map (s :: ·)
        else some [] := rfl
    rw [hunfold, if_pos hcmp]
    have hround : natToIp n (bigVal s) = s := by
      rw [← hsl]
      exact natToIp_bigVal s hs
    rcases Nat.lt_or_ge (bigVal s) (bigVal e) with hlt | hge
    · -- strictly below the end: recurse on the incremented address
      have hk' : bigVal e - bigVal (NextIP s) = k - 1 := by omega
      have hrec := ih (k - 1) (by omega) f (NextIP s) hnext_valid hnext_len
        (by omega) hk' (by omega)
      rw [hrec, hnext_val]
      have hrange : List.range' (bigVal s) (bigVal e - bigVal s + 1) =
          bigVal s :: List.range' (bigVal s + 1) (bigVal e - (bigVal s + 1) + 1) := by
        have hn : bigVal e - bigVal s + 1 = (bigVal e - (bigVal s + 1) + 1) + 1 := by
          omega
        rw [hn, List.range'_succ]
      rw [hrange, List.map_cons, hround, Option.map_some']
    · -- the current address equals the end: one more yield, then the guard fails
      have heq : bigVal s = bigVal e := by omega
      have hse' : s = e := bigVal_inj hs he hse heq
      obtain ⟨f', rfl⟩ : ∃ f', f = f' + 1 := ⟨f - 1, by omega⟩
      have hcmp2 : ¬ CompareIPs (NextIP s) e ≤ 0 := by
        rw [CompareIPs_same_length _ _ (hnext_len.trans hel.symm),
          compareBytes_spec _ _ hnext_valid he (hnext_len.trans hel.symm), hnext_val]
        split_ifs <;> omega
      have hunfold2 : getIPsLoop e (f' + 1) (NextIP s) =
          if CompareIPs (NextIP s) e ≤ 0 then
            (getIPsLoop e f' (NextIP (NextIP s))).map ((NextIP s) :: ·)
          else some [] := rfl
      rw [hunfold2, if_neg hcmp2, heq, Nat.sub_self]
      have hr1 : List.range' (bigVal e) (0 + 1) = [bigVal e] := by
        norm_num [List.range'_one]
      rw [hr1]
      simp only [Option.map_some', List.map_cons, List.map_nil]
      rw [← heq, hround]

lemma natToIp_length (n k : Nat) : (natToIp n k).length = n := by
  induction n generalizing k with
  | zero => rfl
  | succ n ih => simp [natToIp, ih]

lemma natToIp_valid (n k : Nat) : ValidIP (natToIp n k) := by
  induction n generalizing k with
  | zero => intro b hb; simp [natToIp] at hb
  | succ n ih =>
    intro b hb
    simp only [natToIp, List.mem_append, List.mem_singleton] at hb
    rcases hb with hb | rfl
    · exact ih (k / 256) b hb
    · exact Nat.mod_lt _ (by norm_num)

lemma bigVal_natToIp (n k : Nat) : bigVal (natToIp n k) = k % 256 ^ n := by
  induction n generalizing k with
  | zero => simp [natToIp, bigVal, Nat.mod_one]
  | succ n ih =>
    simp only [natToIp, bigVal_append_singleton, ih]
    rw [pow_succ, Nat.mul_comm (256 ^ n) 256, Nat.mod_mul]
    ring

lemma nextIPRev_replicate (n : Nat) :
    nextIPRev (List.replicate n 255) = List.replicate n 0 := by
  induction n with
  | zero => rfl
  | succ n ih =>
    simp only [List.replicate_succ, nextIPRev]
    norm_num [ih]

lemma NextIP_replicate (n : Nat) :
    NextIP (List.replicate n 255) = List.replicate n 0 := by
  simp [NextIP, List.reverse_replicate, nextIPRev_replicate]

lemma validIP_replicate255 (n : Nat) : ValidIP (List.replicate n 255) := by
  intro b hb
  have := List.eq_of_mem_replicate hb
  omega

lemma bigVal_replicate255 (n : Nat) :
    bigVal (List.replicate n 255) = 256 ^ n - 1 := by
  induction n with
  | zero => rfl
  | succ n ih =>
    have h1 : bigVal (List.replicate (n + 1) 255)
        = 255 * 256 ^ n + bigVal (List.replicate n 255) := by
      simp [List.replicate_succ, bigVal]
    rw [h1, ih, pow_succ]
    have hpos : 1 ≤ 256 ^ n := Nat.one_le_pow _ _ (by norm_num)
    omega

lemma compareBytes_total (a : List Nat) : ∀ (b : List Nat),
    compareBytes a b = -1 ∨ compareBytes a b = 0 ∨ compareBytes a b = 1 := by
  induction a with
  | nil => intro b; cases b <;> simp [compareBytes]
  | cons x xs ih =>
    intro b
    cases b with
    | nil => simp [compareBytes]
    | cons y ys =>
      have hcb : compareBytes (x :: xs) (y :: ys) =
          if x < y then -1 else if x > y then 1 else compareBytes xs ys := rfl
      rw [hcb]
      split_ifs
      · exact Or.inl rfl
      · exact Or.inr (Or.inr rfl)
      · exact ih ys

lemma getIPsLoop_allOnes (n : Nat) : ∀ (fuel : Nat) (s : List Nat), ValidIP s →
    s.length = n → getIPsLoop (List.replicate n 255) fuel s = none := by
  intro fuel
  induction fuel with
  | zero => intro s _ _; rfl
  | succ fuel ih =>
    intro s hs hsl
    have hsle : s.length = (List.replicate n 255).length := by
      simp [hsl]
    have hcmp : CompareIPs s (List.replicate n 255) ≤ 0 := by
      rw [CompareIPs_same_length _ _ hsle,
        compareBytes_spec s _ hs (validIP_replicate255 n) hsle]
      have h1 : bigVal s < 256 ^ n := by
        rw [← hsl]
        exact bigVal_lt s hs
      have h2 : bigVal (List.replicate n 255) = 256 ^ n - 1 := bigVal_replicate255 n
      split_ifs <;> omega
    have hunfold : getIPsLoop (List.replicate n 255) (fuel + 1) s =
        if CompareIPs s (List.replicate n 255) ≤ 0 then
          (getIPsLoop (List.replicate n 255) fuel (NextIP s)).map (s :: ·)
        else some [] := rfl
    rw [hunfold, if_pos hcmp,
      ih (NextIP s) (NextIP_valid s hs) ((NextIP_length s).trans hsl)]
    rfl

/-- **C10.** `NextIP` increments an address as `(value + 1) mod 256^len`: on an
address whose bytes are all `0xFF` it returns the all-zero address of the same
length, the carry out of the highest byte being discarded, and consequently the
`GetIPsInRange` loop with an all-ones stored end never terminates (the guard
`CompareIPs ip end <= 0` can never fail), for any amount of fuel. -/
theorem NextIP_wraparound :
    (∀ n : Nat, NextIP (List.replicate n 255) = List.replicate n 0) ∧
    (∀ ip : List Nat, ValidIP ip →
      bigVal (NextIP ip) = (bigVal ip + 1) % 256 ^ ip.length) ∧
    (∀ (n fuel : Nat) (s : List Nat), ValidIP s → s.length = n →
      getIPsLoop (List.replicate n 255) fuel s = none) :=
  ⟨NextIP_replicate, NextIP_bigVal, fun n fuel s hs hsl =>
    getIPsLoop_allOnes n fuel s hs hsl⟩

/-- **C10 witness.** The wraparound theorem instantiated on concrete inputs:
`0xFF.0xFF` increments to `0.0`, the 1-byte address `[255]` wraps to value 0,
and enumeration towards the all-ones end `[255]` starting from `[3]` has not
terminated after 5 iterations. -/
theorem NextIP_wraparound_witness :
    NextIP (List.replicate 2 255) = List.replicate 2 0 ∧
    bigVal (NextIP [255]) = (bigVal [255] + 1) % 256 ^ ([255] : List Nat).length ∧
    getIPsLoop (List.replicate 1 255) 5 [3] = none :=
  ⟨NextIP_wraparound.1 2,
   NextIP_wraparound.2.1 [255] (by decide),
   NextIP_wraparound.2.2 1 5 [3] (by decide) (by decide)⟩

/-- **C3 (amended).** For an `IPRange` whose endpoints are equal-length byte
strings with `start ≤ end`, *provided the end is not the all-ones address*
(`bigVal end + 1 < 256^len`), the `GetIPsInRange` loop terminates (within any
fuel ≥ the range size + 2) and produces exactly the addresses whose values run
from `bigVal start` to `bigVal end` inclusive, in increasing order, and
incrementing `192.168.1.255` yields `192.168.2.0`. -/
theorem GetIPsInRange_enumerates (r : IPRange) (fuel : Nat)
    (hs : ValidIP r.Start) (he : ValidIP r.End)
    (hlen : r.Start.length = r.End.length)
    (hle : bigVal r.Start ≤ bigVal r.End)
    (hnotall : bigVal r.End + 1 < 256 ^ r.End.length)
    (hfuel : bigVal r.End - bigVal r.Start + 2 ≤ fuel) :
    GetIPsInRangeFuel r fuel =
      some ((List.range' (bigVal r.Start) (bigVal r.End - bigVal r.Start + 1)).map
        (natToIp r.End.length)) ∧
    NextIP [192, 168, 1, 255] = [192, 168, 2, 0] :=
  ⟨getIPsLoop_spec r.End.length r.End he rfl hnotall
    (bigVal r.End - bigVal r.Start) fuel r.Start hs hlen hle rfl hfuel,
   by decide⟩

/-- **C3 witness.** The enumeration theorem instantiated on the concrete range
`[10] .. [12]` with fuel 10: it yields exactly `[[10], [11], [12]]`. -/
theorem GetIPsInRange_enumerates_witness :
    GetIPsInRangeFuel ⟨[10], [12]⟩ 10 =
      some ((List.range' (bigVal [10]) (bigVal [12] - bigVal [10] + 1)).map
        (natToIp ([12] : List Nat).length)) ∧
    NextIP [192, 168, 1, 255] = [192, 168, 2, 0] :=
  GetIPsInRange_enumerates ⟨[10], [12]⟩ 10 (by decide) (by decide) (by decide)
    (by decide) (by decide) (by decide)

set_option maxRecDepth 4000 in
/-- **C3 counterexample.** The claim as stated fails when the stored end is the
all-ones address: the range `[255] .. [255]` holds exactly one address, yet the
`GetIPsInRange` loop has still not terminated after 300 iterations (the
incremented counter wraps past the end and the guard never fails), while the
same fuel enumerates the five-address range `[250] .. [254]` completely. -/
theorem GetIPsInRange_allOnes_cex :
    GetIPsInRangeFuel ⟨[255], [255]⟩ 300 = none ∧
    GetIPsInRangeFuel ⟨[250], [254]⟩ 300 =
      some [[250], [251], [252], [253], [254]] := by
  constructor
  · decide
  · decide

/-- **C8.** `CompareIPs` is total and only ever returns -1, 0 or 1; on operands
of the same byte length (and, via `To4` normalization, on a 4-byte operand
against a 16-byte IPv4-mapped one) it orders byte-wise lexicographically, which
for valid bytes coincides with numeric order of the big-endian values; operands
of differing lengths that cannot be normalized produce the defined result 0
rather than a crash. -/
theorem CompareIPs_total_spec :
    (∀ a b : List Nat,
      CompareIPs a b = -1 ∨ CompareIPs a b = 0 ∨ CompareIPs a b = 1) ∧
    (∀ a b : List Nat, ValidIP a → ValidIP b → a.length = b.length →
      CompareIPs a b =
        if bigVal a < bigVal b then -1 else if bigVal b < bigVal a then 1 else 0) ∧
    CompareIPs [192, 168, 1, 1] [192, 168, 1, 2] = -1 ∧
    CompareIPs [192, 168, 1, 1] [192, 168, 1, 1] = 0 ∧
    CompareIPs [192, 168, 1, 1]
      [0, 0, 0, 0, 0, 0, 0, 0, 0, 0, 255, 255, 192, 168, 1, 2] = -1 ∧
    CompareIPs [192, 168, 1, 1]
      [32, 1, 13, 184, 0, 0, 0, 0, 0, 0, 0, 0, 0, 0, 0, 1] = 0 := by
  refine ⟨?_, ?_, by decide, by decide, by decide, by decide⟩
  · intro a b
    by_cases hlen : a.length = b.length
    · rw [CompareIPs_same_length a b hlen]
      exact compareBytes_total a b
    · simp only [CompareIPs, if_pos hlen]
      rcases to4 a with _ | a4
      · exact Or.inr (Or.inl rfl)
      · rcases to4 b with _ | b4
        · exact Or.inr (Or.inl rfl)
        · exact compareBytes_total a4 b4
  · intro a b ha hb hlen
    rw [CompareIPs_same_length a b hlen]
    exact compareBytes_spec a b ha hb hlen

/-- **C8 witness.** The comparison theorem instantiated at `[1, 2]` vs `[1, 3]`:
both valid byte strings of equal length, compared numerically. -/
theorem CompareIPs_total_spec_witness :
    (CompareIPs [1, 2] [1, 3] = -1 ∨ CompareIPs [1, 2] [1, 3] = 0 ∨
      CompareIPs [1, 2] [1, 3] = 1) ∧
    CompareIPs [1, 2] [1, 3] =
      (if bigVal [1, 2] < bigVal [1, 3] then -1
       else if bigVal [1, 3] < bigVal [1, 2] then 1 else 0) :=
  ⟨CompareIPs_total_spec.1 [1, 2] [1, 3],
   CompareIPs_total_spec.2.1 [1, 2] [1, 3] (by decide) (by decide) (by decide)⟩

lemma zipWith_congr_snd (f g : Nat → Nat → Nat) :
    ∀ (l m : List Nat), (∀ a b, b ∈ m → f a b = g a b) →
      List.zipWith f l m = List.zipWith g l m := by
  intro l
  induction l with
  | nil => intro m _; simp
  | cons a l ih =>
    intro m h
    cases m with
    | nil => simp
    | cons b bs =>
      simp only [List.zipWith_cons_cons]
      rw [h a b (List.mem_cons_self b bs), ih bs (fun x y hy => h x y (List.mem_cons_of_mem b hy))]

set_option maxRecDepth 4000 in
lemma byte_xor_complement : ∀ m < 256, Nat.xor 255 m = 255 - m := by decide

lemma to4_length (ip l : List Nat) (h : to4 ip = some l) : l.length = 4 := by
  unfold to4 at h
  by_cases h4 : ip.length = 4
  · rw [if_pos h4] at h
    have he := Option.some.inj h
    rw [← he]
    exact h4
  · rw [if_neg h4] at h
    by_cases h16 : ip.length = 16 ∧ ip.take 12 = v4InV6Header
    · rw [if_pos h16] at h
      have he := Option.some.inj h
      rw [← he, List.length_drop, h16.1]
    · rw [if_neg h16] at h
      exact absurd h (by simp)

lemma maskIP_of_eq_length (a mask : List Nat) (hlen : a.length = mask.length) :
    maskIP a mask = List.zipWith Nat.land a mask := by
  have hma : maskAdjusted a mask = mask := by
    unfold maskAdjusted
    rw [if_neg]
    rintro ⟨h16, h4, _⟩
    omega
  have hia : ipAdjusted a mask = a := by
    unfold ipAdjusted
    rw [hma, if_neg]
    rintro ⟨h4, h16, _⟩
    omega
  unfold maskIP
  rw [hma, hia, if_pos hlen]

lemma maskIP_length_of_ip4 (ip4 mask : List Nat) (hl4 : ip4.length = 4)
    (h16 : mask.length = 16) : (maskIP ip4 mask).length ≤ 4 := by
  by_cases htake : mask.take 12 = List.replicate 12 255
  · have hma : maskAdjusted ip4 mask = mask.drop 12 := by
      unfold maskAdjusted
      rw [if_pos ⟨h16, hl4, htake⟩]
    have hia : ipAdjusted ip4 mask = ip4 := by
      unfold ipAdjusted
      rw [hma, if_neg]
      rintro ⟨_, hl16, _⟩
      omega
    unfold maskIP
    rw [hma, hia]
    split
    · simp [List.length_zipWith, hl4]
    · simp
  · have hma : maskAdjusted ip4 mask = mask := by
      unfold maskAdjusted
      rw [if_neg]
      rintro ⟨_, _, ht⟩
      exact htake ht
    have hia : ipAdjusted ip4 mask = ip4 := by
      unfold ipAdjusted
      rw [hma, if_neg]
      rintro ⟨hm4, _, _⟩
      omega
    unfold maskIP
    rw [hma, hia, if_neg (by omega)]
    simp

set_option maxRecDepth 16000 in
/-- **C5 (amended).** `parseSubnet`'s range computation matches the
specification *when the `To4`-normalized address and the mask have the same
byte length* — every plain IPv4 CIDR and every plain IPv6 CIDR: the start is
the normalized address AND the mask and the end sets every bit outside the mask
to 1 on top of the start; on `192.168.1.0/24` it returns start `192.168.1.0`
and end `192.168.1.255`, and enumerating that range yields exactly 256
addresses whose values increase consecutively. For an IPv4-mapped IPv6 CIDR
(normalized address 4 bytes, mask 16 bytes) the end-computation loop indexes
past the end slice and the function panics. -/
theorem parseSubnet_matches_spec :
    (∀ ip mask : List Nat, ValidIP mask →
      ((to4 ip).getD ip).length = mask.length →
      parseSubnet ip mask = some (specSubnetRange ((to4 ip).getD ip) mask)) ∧
    (∀ ip ip4 mask : List Nat, to4 ip = some ip4 → mask.length = 16 →
      parseSubnet ip mask = none) ∧
    parseSubnet [192, 168, 1, 0] [255, 255, 255, 0] =
      some ⟨[192, 168, 1, 0], [192, 168, 1, 255]⟩ ∧
    (∃ l, GetIPsInRangeFuel ⟨[192, 168, 1, 0], [192, 168, 1, 255]⟩ 300 = some l ∧
      l.length = 256 ∧ l.map bigVal = List.range' (bigVal [192, 168, 1, 0]) 256) := by
  refine ⟨?_, ?_, by decide, ?_⟩
  · intro ip mask hv hlen
    have hmask : maskIP ((to4 ip).getD ip) mask =
        List.zipWith Nat.land ((to4 ip).getD ip) mask :=
      maskIP_of_eq_length _ _ hlen
    have hslen : (List.zipWith Nat.land ((to4 ip).getD ip) mask).length =
        mask.length := by
      rw [List.length_zipWith, hlen, Nat.min_self]
    unfold parseSubnet
    rw [hmask, if_pos (le_of_eq hslen.symm)]
    have hdrop : (List.zipWith Nat.land ((to4 ip).getD ip) mask).drop mask.length
        = [] :=
      List.drop_eq_nil_of_le (le_of_eq hslen)
    rw [hdrop, List.append_nil]
    unfold specSubnetRange
    simp only [Option.some.injEq, IPRange.mk.injEq, true_and]
    exact zipWith_congr_snd _ _ _ mask
      (fun a b hb => by rw [byte_xor_complement b (hv b hb)])
  · intro ip ip4 mask h4 h16
    have hgd : (to4 ip).getD ip = ip4 := by
      rw [h4]
      rfl
    have hl4 := to4_length ip ip4 h4
    have hle := maskIP_length_of_ip4 ip4 mask hl4 h16
    unfold parseSubnet
    rw [hgd, if_neg (by omega)]
  · have h := getIPsLoop_spec 4 [192, 168, 1, 255] (by decide) (by decide)
      (by norm_num [bigVal]) (bigVal [192, 168, 1, 255] - bigVal [192, 168, 1, 0])
      300 [192, 168, 1, 0] (by decide) (by decide) (by norm_num [bigVal])
      rfl (by norm_num [bigVal])
    refine ⟨(List.range' (bigVal [192, 168, 1, 0])
        (bigVal [192, 168, 1, 255] - bigVal [192, 168, 1, 0] + 1)).map (natToIp 4),
      h, ?_, ?_⟩
    · simp only [List.length_map, List.length_range']
      norm_num [bigVal]
    · rw [List.map_map]
      have hcongr : ∀ k ∈ List.range' (bigVal [192, 168, 1, 0])
          (bigVal [192, 168, 1, 255] - bigVal [192, 168, 1, 0] + 1),
          (bigVal ∘ natToIp 4) k = k := by
        intro k hk
        have hb := List.mem_range'.mp hk
        have h2 : bigVal [192, 168, 1, 0] ≤ bigVal [192, 168, 1, 255] := by
          norm_num [bigVal]
        have hk4 : k < 256 ^ 4 := by
          have h3 : bigVal [192, 168, 1, 255] < 256 ^ 4 := by norm_num [bigVal]
          omega
        simp only [Function.comp_apply, bigVal_natToIp]
        exact Nat.mod_eq_of_lt hk4
      rw [List.map_congr_left hcongr, List.map_id']
      congr 1

set_option maxRecDepth 16000 in
/-- **C5 counterexample.** The claim over *every* well-formed CIDR fails on an
IPv4-mapped IPv6 CIDR: on `::ffff:192.168.1.0/120` (16-byte parsed address
with the IPv4-mapped header, 16-byte `/120` mask) `To4` shortens the address to
4 bytes, `ip.Mask` yields a 4-byte start, and the end loop
`for i := 0; i < len(ipNet.Mask); i++` indexes the 4-byte end slice at `i = 4`
— an index-out-of-range panic (`none`) instead of the claimed range. -/
theorem parseSubnet_mapped_cidr_cex :
    to4 [0, 0, 0, 0, 0, 0, 0, 0, 0, 0, 255, 255, 192, 168, 1, 0] =
      some [192, 168, 1, 0] ∧
    parseSubnet [0, 0, 0, 0, 0, 0, 0, 0, 0, 0, 255, 255, 192, 168, 1, 0]
      [255, 255, 255, 255, 255, 255, 255, 255, 255, 255, 255, 255, 255, 255,
        255, 0] = none := by
  constructor
  · decide
  · decide

set_option maxRecDepth 16000 in
/-- **C5 witness.** The subnet theorem instantiated concretely: the equal-length
conjunct on address `10.0.0.1` with mask `255.0.0.0`, and the panic conjunct on
the IPv4-mapped address `::ffff:10.0.0.1` with a 16-byte `/120` mask. -/
theorem parseSubnet_matches_spec_witness :
    parseSubnet [10, 0, 0, 1] [255, 0, 0, 0] =
      some (specSubnetRange ((to4 [10, 0, 0, 1]).getD [10, 0, 0, 1])
        [255, 0, 0, 0]) ∧
    parseSubnet [0, 0, 0, 0, 0, 0, 0, 0, 0, 0, 255, 255, 10, 0, 0, 1]
      [255, 255, 255, 255, 255, 255, 255, 255, 255, 255, 255, 255, 255, 255,
        255, 0] = none :=
  ⟨parseSubnet_matches_spec.1 [10, 0, 0, 1] [255, 0, 0, 0] (by decide) (by decide),
   parseSubnet_matches_spec.2.1 [0, 0, 0, 0, 0, 0, 0, 0, 0, 0, 255, 255, 10, 0, 0, 1]
     [10, 0, 0, 1]
     [255, 255, 255, 255, 255, 255, 255, 255, 255, 255, 255, 255, 255, 255,
       255, 0] (by decide) (by decide)⟩

/-- **C6.** The hostname check returns true exactly when the hostname is
string-equal (exact, case-sensitive) to the common name or to one of the DNS
SANs; wildcards are never expanded (`*.example.com` does not match
`foo.example.com`, and matching is case-sensitive). -/
theorem isHostnameInCert_exact :
    (∀ (cert : Certificate) (hostname : String),
      isHostnameInCert cert hostname = true ↔
        hostname = cert.SubjectCommonName ∨ hostname ∈ cert.DNSNames) ∧
    isHostnameInCert ⟨"*.example.com", ["*.example.com"], 0, 0, 0, "", [], []⟩
      "foo.example.com" = false ∧
    isHostnameInCert ⟨"example.com", ["www.example.com"], 0, 0, 0, "", [], []⟩
      "www.example.com" = true ∧
    isHostnameInCert ⟨"example.com", [], 0, 0, 0, "", [], []⟩ "Example.com" = false := by
  refine ⟨?_, by decide, by decide, by decide⟩
  intro cert hostname
  by_cases hcn : cert.SubjectCommonName = hostname
  · simp [isHostnameInCert, hcn]
  · have hbeq : (cert.SubjectCommonName == hostname) = false := by
      simpa using hcn
    simp only [isHostnameInCert, hbeq, Bool.false_eq_true, if_false,
      List.any_eq_true, beq_iff_eq]
    constructor
    · rintro ⟨x, hx, rfl⟩
      exact Or.inr hx
    · rintro (h | h)
      · exact absurd h.symm hcn
      · exact ⟨hostname, h, rfl⟩

lemma concatStrings_append (a b : List String) :
    concatStrings (a ++ b) = concatStrings a ++ concatStrings b := by
  induction a with
  | nil => simp [concatStrings, String.empty_append]
  | cons s rest ih =>
    show s ++ concatStrings (rest ++ b) = (s ++ concatStrings rest) ++ concatStrings b
    rw [ih, String.append_assoc]

lemma foldl_errLine (l : List (String × String)) :
    ∀ init : String,
      l.foldl (fun acc p => acc ++ errLine p.1 p.2) init =
        init ++ concatStrings (l.map (fun p => errLine p.1 p.2)) := by
  induction l with
  | nil =>
    intro init
    simp [concatStrings, String.append_empty]
  | cons p ps ih =>
    intro init
    simp only [List.foldl_cons, List.map_cons, concatStrings]
    rw [ih (init ++ errLine p.1 p.2), String.append_assoc]

/-- **C7 (amended).** `MultiError.Error` renders a header line followed by, for
each mapping entry in mapping order, the line `Domain: <identifier>, Error:
<message>` (not `identifier -> message`): the whole rendering is the header plus
the concatenation of the per-entry lines, and every entry of the mapping
contributes its line — containing identifier and message verbatim — as a
contiguous chunk of the output. -/
theorem MultiErrorString_renders_entries :
    (∀ me : MultiError,
      MultiErrorString me = "Multiple errors occurred:\n" ++
        concatStrings (me.Errors.map (fun p => errLine p.1 p.2))) ∧
    (∀ (me : MultiError) (p : String × String), p ∈ me.Errors →
      ∃ pre post, MultiErrorString me =
        pre ++ (("Domain: " ++ p.1 ++ ", Error: " ++ p.2 ++ "\n") ++ post)) := by
  constructor
  · intro me
    exact foldl_errLine me.Errors _
  · intro me p hp
    obtain ⟨l1, l2, hsplit⟩ := List.append_of_mem hp
    refine ⟨"Multiple errors occurred:\n" ++
      concatStrings (l1.map (fun q => errLine q.1 q.2)),
      concatStrings (l2.map (fun q => errLine q.1 q.2)), ?_⟩
    have h0 : MultiErrorString me = "Multiple errors occurred:\n" ++
        concatStrings (me.Errors.map (fun q => errLine q.1 q.2)) :=
      foldl_errLine me.Errors _
    rw [h0, hsplit]
    simp only [List.map_append, List.map_cons, concatStrings_append, concatStrings]
    rw [String.append_assoc]
    rfl

/-- **C7 witness.** The rendering theorem instantiated on the one-entry mapping
`example.com -> connection failed`: its line appears as a contiguous chunk. -/
theorem MultiErrorString_renders_entries_witness :
    ∃ pre post, MultiErrorString ⟨[("example.com", "connection failed")]⟩ =
      pre ++ (("Domain: " ++ "example.com" ++ ", Error: " ++ "connection failed"
        ++ "\n") ++ post) :=
  MultiErrorString_renders_entries.2 ⟨[("example.com", "connection failed")]⟩
    ("example.com", "connection failed") (List.mem_singleton.mpr rfl)

/-- **C7 counterexample.** The rendering of a one-entry mapping is one header
line plus `Domain: example.com, Error: connection failed` — it contains the
identifier and the message verbatim, but no line of the form
`identifier -> message`: the output does not even contain the character
`>`. -/
theorem MultiErrorString_no_arrow_cex :
    MultiErrorString ⟨[("example.com", "connection failed")]⟩ =
      "Multiple errors occurred:\nDomain: example.com, Error: connection failed\n" ∧
    ((MultiErrorString ⟨[("example.com", "connection failed")]⟩).data.all
      (fun c => c ≠ '>')) = true := by
  constructor
  · rfl
  · decide

lemma hasKey_mapInsert (m : List (String × String)) (k v s : String) :
    HasKey (mapInsert m k v) s ↔ HasKey m s ∨ s = k := by
  unfold mapInsert
  split
  · rename_i hany
    constructor
    · rintro ⟨w, hw⟩
      obtain ⟨p, hp, hfp⟩ := List.mem_map.mp hw
      by_cases hpk : p.1 = k
      · have : (s, w) = (k, v) := by
          rw [← hfp]
          simp [hpk]
        exact Or.inr (congrArg Prod.fst this)
      · have : (s, w) = p := by
          rw [← hfp]
          simp [hpk]
        exact Or.inl ⟨w, this ▸ hp⟩
    · rintro (⟨w, hw⟩ | rfl)
      · by_cases hsk : s = k
        · subst hsk
          exact ⟨v, List.mem_map.mpr ⟨(s, w), hw, by simp⟩⟩
        · exact ⟨w, List.mem_map.mpr ⟨(s, w), hw, by simp [hsk]⟩⟩
      · obtain ⟨p, hp, hpk⟩ := List.any_eq_true.mp hany
        exact ⟨v, List.mem_map.mpr ⟨p, hp, by simp [beq_iff_eq.mp hpk]⟩⟩
  · constructor
    · rintro ⟨w, hw⟩
      rcases List.mem_append.mp hw with h | h
      · exact Or.inl ⟨w, h⟩
      · have := List.mem_singleton.mp h
        exact Or.inr (congrArg Prod.fst this)
    · rintro (⟨w, hw⟩ | rfl)
      · exact ⟨w, List.mem_append_left _ hw⟩
      · exact ⟨v, List.mem_append_right _ (List.mem_singleton.mpr rfl)⟩

lemma hasKey_errFold (probe : String → Except String CertDetails) :
    ∀ (ws : List String) (m : List (String × String)) (s : String),
      HasKey (ws.foldl (scrapeStep probe) m) s ↔
      HasKey m s ∨ (s ∈ ws ∧ ∃ e, probe s = .error e) := by
  intro ws
  induction ws with
  | nil =>
    intro m s
    simp
  | cons w ws ih =>
    intro m s
    rw [List.foldl_cons]
    rcases hw : probe w with e | c
    · simp only [scrapeStep, hw]
      rw [ih (mapInsert m w e) s, hasKey_mapInsert]
      constructor
      · rintro ((h | rfl) | h)
        · exact Or.inl h
        · exact Or.inr ⟨List.mem_cons_self s ws, e, hw⟩
        · exact Or.inr ⟨List.mem_cons_of_mem w h.1, h.2⟩
      · rintro (h | ⟨hmem, he⟩)
        · exact Or.inl (Or.inl h)
        · rcases List.mem_cons.mp hmem with rfl | hmem'
          · exact Or.inl (Or.inr rfl)
          · exact Or.inr ⟨hmem', he⟩
    · simp only [scrapeStep, hw]
      rw [ih m s]
      constructor
      · rintro (h | h)
        · exact Or.inl h
        · exact Or.inr ⟨List.mem_cons_of_mem w h.1, h.2⟩
      · rintro (h | ⟨hmem, e, he⟩)
        · exact Or.inl h
        · rcases List.mem_cons.mp hmem with rfl | hmem'
          · rw [hw] at he
            exact absurd he (by simp)
          · exact Or.inr ⟨hmem', e, he⟩

lemma errFold_nil_of_ok (probe : String → Except String CertDetails)
    (ws : List String) (hok : ∀ s ∈ ws, ∃ c, probe s = .ok c) :
    scrapeErrs probe ws = [] := by
  unfold scrapeErrs
  induction ws with
  | nil => rfl
  | cons w ws ih =>
    obtain ⟨c, hc⟩ := hok w (List.mem_cons_self w ws)
    rw [List.foldl_cons]
    have hstep : scrapeStep probe [] w = [] := by
      simp only [scrapeStep, hc]
    rw [hstep]
    exact ih (fun s hs => hok s (List.mem_cons_of_mem w hs))

lemma filterMap_toOption_length (probe : String → Except String CertDetails)
    (ws : List String) (hok : ∀ s ∈ ws, ∃ c, probe s = .ok c) :
    (ws.filterMap (fun site => (probe site).toOption)).length = ws.length := by
  induction ws with
  | nil => rfl
  | cons w ws ih =>
    obtain ⟨c, hc⟩ := hok w (List.mem_cons_self w ws)
    have htop : (probe w).toOption = some c := by rw [hc]; rfl
    rw [List.filterMap_cons]
    simp only [htop]
    rw [List.length_cons, ih (fun s hs => hok s (List.mem_cons_of_mem w hs))]
    rfl

/-- **C1.** `ScrapeTLS`: on an empty target list it returns zero records and a
nil error; when every probe succeeds it returns one record per target and a nil
error; when at least one probe fails it returns a `MultiError` whose key set is
exactly the failed targets; and in every case the successful records (one per
succeeding target, in the model's canonical order) are returned alongside. -/
theorem ScrapeTLS_partial_results (probe : String → Except String CertDetails)
    (websites : List String) :
    ScrapeTLS probe [] = ([], none) ∧
    ((∀ s ∈ websites, ∃ c, probe s = .ok c) →
      (ScrapeTLS probe websites).1.length = websites.length ∧
      (ScrapeTLS probe websites).2 = none) ∧
    ((∃ s ∈ websites, ∃ e, probe s = .error e) →
      ∃ me : MultiError, (ScrapeTLS probe websites).2 = some me ∧
        (∀ s, HasKey me.Errors s ↔ s ∈ websites ∧ ∃ e, probe s = .error e)) ∧
    (ScrapeTLS probe websites).1 =
      websites.filterMap (fun site => (probe site).toOption) := by
  refine ⟨rfl, ?_, ?_, rfl⟩
  · intro hok
    constructor
    · show (websites.filterMap (fun site => (probe site).toOption)).length =
        websites.length
      exact filterMap_toOption_length probe websites hok
    · show (if (scrapeErrs probe websites).length > 0 then
          some (MultiError.mk (scrapeErrs probe websites)) else none) = none
      rw [errFold_nil_of_ok probe websites hok]
      rfl
  · intro hfail
    obtain ⟨s0, hs0, e0, he0⟩ := hfail
    have hkey : HasKey (scrapeErrs probe websites) s0 :=
      (hasKey_errFold probe websites [] s0).mpr (Or.inr ⟨hs0, e0, he0⟩)
    obtain ⟨v0, hv0⟩ := hkey
    have hpos : 0 < (scrapeErrs probe websites).length :=
      List.length_pos.mpr (List.ne_nil_of_mem hv0)
    refine ⟨MultiError.mk (scrapeErrs probe websites), ?_, ?_⟩
    · show (if (scrapeErrs probe websites).length > 0 then
          some (MultiError.mk (scrapeErrs probe websites)) else none) =
        some (MultiError.mk (scrapeErrs probe websites))
      rw [if_pos hpos]
    · intro s
      show HasKey (scrapeErrs probe websites) s ↔ _
      rw [show scrapeErrs probe websites = websites.foldl (scrapeStep probe) []
          from rfl,
        hasKey_errFold probe websites [] s]
      have hnil : ¬ HasKey [] s := by
        rintro ⟨v, hv⟩
        simp at hv
      constructor
      · rintro (h | h)
        · exact absurd h hnil
        · exact h
      · exact Or.inr

/-- **C1 witness.** The orchestrator theorem instantiated with a concrete probe
that succeeds on `"a"` and fails on `"b"`, over the target list `["a", "b"]`:
the failure branch yields a `MultiError` keyed exactly by the failed target. -/
theorem ScrapeTLS_partial_results_witness :
    ∃ me : MultiError,
      (ScrapeTLS demoProbe ["a", "b"]).2 = some me ∧
      (∀ s, HasKey me.Errors s ↔ s ∈ ["a", "b"] ∧ ∃ e, demoProbe s = .error e) :=
  (ScrapeTLS_partial_results demoProbe ["a", "b"]).2.2.1
    ⟨"b", by simp, "dial tcp: connection refused", by simp [demoProbe]⟩

lemma checkValidityWindow_expired (notBefore notAfter now : Int)
    (v : Bool × List String) (h : notAfter < now) :
    (checkValidityWindow notBefore notAfter now v).1 = false ∧
    "Certificate has expired" ∈ (checkValidityWindow notBefore notAfter now v).2 := by
  unfold checkValidityWindow
  rw [if_pos h]
  exact ⟨rfl, List.mem_append_right _ (List.mem_singleton.mpr rfl)⟩

lemma checkValidityWindow_notYet (notBefore notAfter now : Int)
    (v : Bool × List String) (h : now < notBefore) :
    (checkValidityWindow notBefore notAfter now v).1 = false ∧
    "Certificate is not yet valid" ∈ (checkValidityWindow notBefore notAfter now v).2 := by
  unfold checkValidityWindow
  rw [if_pos h]
  by_cases hna : notAfter < now
  · rw [if_pos hna]
    refine ⟨rfl, List.mem_append_left _ ?_⟩
    exact List.mem_append_right _ (List.mem_singleton.mpr rfl)
  · rw [if_neg hna]
    exact ⟨rfl, List.mem_append_right _ (List.mem_singleton.mpr rfl)⟩

/-- **C4.** After a successful fetch, for every verification outcome (success
or any failure class): whenever the current time is after `NotAfter` the record
is marked invalid and "Certificate has expired" is appended to its reasons, and
whenever the current time is before `NotBefore` the record is marked invalid
and "Certificate is not yet valid" is appended — in both the domain fetcher and
the IP fetcher. -/
theorem validation_window_recheck (domain : String) (hostname : Option String)
    (res : Option VerifyError) (notBefore notAfter now : Int) :
    (notAfter < now →
      (domainValidation domain res notBefore notAfter now).1 = false ∧
      "Certificate has expired" ∈ (domainValidation domain res notBefore notAfter now).2 ∧
      (ipValidation hostname res notBefore notAfter now).1 = false ∧
      "Certificate has expired" ∈ (ipValidation hostname res notBefore notAfter now).2) ∧
    (now < notBefore →
      (domainValidation domain res notBefore notAfter now).1 = false ∧
      "Certificate is not yet valid" ∈
        (domainValidation domain res notBefore notAfter now).2 ∧
      (ipValidation hostname res notBefore notAfter now).1 = false ∧
      "Certificate is not yet valid" ∈
        (ipValidation hostname res notBefore notAfter now).2) := by
  constructor
  · intro h
    obtain ⟨h1, h2⟩ := checkValidityWindow_expired notBefore notAfter now
      (applyDomainVerify domain res (true, [])) h
    obtain ⟨h3, h4⟩ := checkValidityWindow_expired notBefore notAfter now
      (applyIPVerify hostname res (true, [])) h
    exact ⟨h1, h2, h3, h4⟩
  · intro h
    obtain ⟨h1, h2⟩ := checkValidityWindow_notYet notBefore notAfter now
      (applyDomainVerify domain res (true, [])) h
    obtain ⟨h3, h4⟩ := checkValidityWindow_notYet notBefore notAfter now
      (applyIPVerify hostname res (true, [])) h
    exact ⟨h1, h2, h3, h4⟩

/-- **C4 witness.** The recheck theorem instantiated with a chain verification
that *succeeded* (`none`) yet an expired window (`NotAfter` 10 < now 20), and
with a not-yet-valid window (now -5 < `NotBefore` 0) under an
unknown-authority verification failure. -/
theorem validation_window_recheck_witness :
    ((10 : Int) < 20 →
      (domainValidation "example.com" none 0 10 20).1 = false ∧
      "Certificate has expired" ∈ (domainValidation "example.com" none 0 10 20).2 ∧
      (ipValidation (some "host.example.com") none 0 10 20).1 = false ∧
      "Certificate has expired" ∈
        (ipValidation (some "host.example.com") none 0 10 20).2) ∧
    ((-5 : Int) < 0 →
      (domainValidation "example.com" (some .UnknownAuthority) 0 10 (-5)).1 = false ∧
      "Certificate is not yet valid" ∈
        (domainValidation "example.com" (some .UnknownAuthority) 0 10 (-5)).2 ∧
      (ipValidation none (some .UnknownAuthority) 0 10 (-5)).1 = false ∧
      "Certificate is not yet valid" ∈
        (ipValidation none (some .UnknownAuthority) 0 10 (-5)).2) :=
  ⟨fun h => ((validation_window_recheck "example.com" (some "host.example.com")
      none 0 10 20).1 h),
   fun h => ((validation_window_recheck "example.com" none
      (some .UnknownAuthority) 0 10 (-5)).2 h)⟩

/-- **C9.** The OCSP checker fails with the no-server error when the leaf
advertises no responder URL; when a response is obtained it succeeds exactly
when the status is good and fails with the invalid-status error exactly when it
is not; and the result depends on the HTTP POST function only at the first
advertised URL — no other responder is ever consulted. -/
theorem CheckOCSPStatus_spec (env : OCSPEnv) (cert issuer : Certificate) :
    (cert.OCSPServer = [] →
      CheckOCSPStatus env cert issuer = .error "no OCSP server specified in cert") ∧
    (∀ resp, GetOCSPResp env cert issuer = .ok resp →
      (CheckOCSPStatus env cert issuer = .ok () ↔ resp.Status = .Good) ∧
      (CheckOCSPStatus env cert issuer = .error "invalid OCSP status" ↔
        resp.Status ≠ .Good)) ∧
    (∀ env2 : OCSPEnv, env2.createRequest = env.createRequest →
      env2.parseResponse = env.parseResponse →
      (∀ url ∈ cert.OCSPServer.take 1, ∀ b, env2.httpPost url b = env.httpPost url b) →
      GetOCSPResp env2 cert issuer = GetOCSPResp env cert issuer) := by
  refine ⟨?_, ?_, ?_⟩
  · intro hempty
    have hg : GetOCSPResp env cert issuer =
        .error "no OCSP server specified in cert" := by
      unfold GetOCSPResp
      rw [hempty]
      rfl
    unfold CheckOCSPStatus
    rw [hg]
  · intro resp hresp
    have hck : CheckOCSPStatus env cert issuer =
        if resp.Status ≠ OCSPStatus.Good then .error "invalid OCSP status"
        else .ok () := by
      unfold CheckOCSPStatus
      rw [hresp]
    rw [hck]
    by_cases hs : resp.Status = OCSPStatus.Good
    · rw [if_neg (by simp [hs])]
      constructor
      · exact ⟨fun _ => hs, fun _ => rfl⟩
      · constructor
        · intro h
          exact absurd h (by simp)
        · intro h
          exact absurd hs h
    · rw [if_pos hs]
      constructor
      · constructor
        · intro h
          exact absurd h (by simp)
        · intro h
          exact absurd h hs
      · exact ⟨fun _ => hs, fun _ => rfl⟩
  · intro env2 hreq hparse hpost
    unfold GetOCSPResp
    rw [hreq, hparse]
    by_cases hlen : cert.OCSPServer.length = 0
    · rw [if_pos hlen, if_pos hlen]
    · rw [if_neg hlen, if_neg hlen]
      have hmem : cert.OCSPServer.headD "" ∈ cert.OCSPServer.take 1 := by
        cases hsv : cert.OCSPServer with
        | nil =>
          rw [hsv] at hlen
          simp at hlen
        | cons u r => simp
      have hurl : env2.httpPost (cert.OCSPServer.headD "") =
          env.httpPost (cert.OCSPServer.headD "") := by
        funext b
        exact hpost _ hmem b
      rw [hurl]

/-- **C9 witness.** The OCSP theorem instantiated with a concrete environment
whose parser reports a revoked status, a leaf advertising one responder URL
(the status branch), and a leaf advertising none (the no-server branch). -/
theorem CheckOCSPStatus_spec_witness :
    CheckOCSPStatus
      ⟨fun _ _ => .ok [], fun _ _ => .ok [], fun _ _ => .ok ⟨.Revoked, none⟩⟩
      ⟨"", [], 0, 0, 0, "", [], []⟩ ⟨"", [], 0, 0, 0, "", [], []⟩ =
        .error "no OCSP server specified in cert" ∧
    (CheckOCSPStatus
      ⟨fun _ _ => .ok [], fun _ _ => .ok [], fun _ _ => .ok ⟨.Revoked, none⟩⟩
      ⟨"", [], 0, 0, 0, "", [], ["http://ocsp.example"]⟩
      ⟨"", [], 0, 0, 0, "", [], []⟩ =
        .error "invalid OCSP status" ↔
      (OCSPResponse.mk .Revoked none).Status ≠ .Good) :=
  ⟨(CheckOCSPStatus_spec
      ⟨fun _ _ => .ok [], fun _ _ => .ok [], fun _ _ => .ok ⟨.Revoked, none⟩⟩
      ⟨"", [], 0, 0, 0, "", [], []⟩ ⟨"", [], 0, 0, 0, "", [], []⟩).1 rfl,
   ((CheckOCSPStatus_spec
      ⟨fun _ _ => .ok [], fun _ _ => .ok [], fun _ _ => .ok ⟨.Revoked, none⟩⟩
      ⟨"", [], 0, 0, 0, "", [], ["http://ocsp.example"]⟩
      ⟨"", [], 0, 0, 0, "", [], []⟩).2.1 ⟨.Revoked, none⟩ rfl).2⟩

end TlsScrape

